import Mathlib

/-!
Verification development for the MomentumAI backend (`backend.py`).

The definitions below are a shallow embedding of the scoring, projection,
negotiation and search/filter engines of `src/backend.py` (and, where noted,
of the duplicated variant `src/src/backend.py`).  Python floats are modelled
as rationals (`ℚ`), Python ints as `ℤ`, Python's `round` as round-half-to-even
on `ℚ`, and pandas rows as finite maps from column names to optional values.
-/

namespace Momentum

/-- Python 3 `round(x)`: round half to even (banker's rounding), on `ℚ`. -/
def pyRound (q : ℚ) : ℤ :=
  if q - (⌊q⌋ : ℚ) < 1/2 then ⌊q⌋
  else if 1/2 < q - (⌊q⌋ : ℚ) then ⌊q⌋ + 1
  else if ⌊q⌋ % 2 = 0 then ⌊q⌋ else ⌊q⌋ + 1

/-- Python `int(x)` on a float: truncation toward zero. -/
def pyInt (q : ℚ) : ℤ := if q < 0 then ⌈q⌉ else ⌊q⌋

/-- Python `round(x, 1)`: round half to even at one decimal place. -/
def round1 (q : ℚ) : ℚ := (pyRound (q * 10) : ℚ) / 10

/-- Python `round(x, 4)`: round half to even at four decimal places. -/
def round4 (q : ℚ) : ℚ := (pyRound (q * 10000) : ℚ) / 10000

theorem floor_le_pyRound (q : ℚ) : ⌊q⌋ ≤ pyRound q := by
  unfold pyRound
  split_ifs <;> omega

theorem pyRound_le_floor_add_one (q : ℚ) : pyRound q ≤ ⌊q⌋ + 1 := by
  unfold pyRound
  split_ifs <;> omega

theorem pyRound_intCast (n : ℤ) : pyRound (n : ℚ) = n := by
  unfold pyRound
  have h1 : ⌊(n : ℚ)⌋ = n := Int.floor_intCast n
  rw [h1]
  norm_num

theorem pyRound_mono {a b : ℚ} (h : a ≤ b) : pyRound a ≤ pyRound b := by
  have hf : ⌊a⌋ ≤ ⌊b⌋ := Int.floor_le_floor h
  rcases eq_or_lt_of_le hf with heq | hlt
  · have hrb : a - (⌊a⌋ : ℚ) ≤ b - (⌊b⌋ : ℚ) := by
      rw [← heq]; linarith
    unfold pyRound
    rw [← heq]
    split_ifs <;> first | omega | linarith
  · calc pyRound a ≤ ⌊a⌋ + 1 := pyRound_le_floor_add_one a
      _ ≤ ⌊b⌋ := by omega
      _ ≤ pyRound b := floor_le_pyRound b

theorem pyRound_nonneg {q : ℚ} (h : 0 ≤ q) : 0 ≤ pyRound q := by
  have h0 : pyRound ((0 : ℤ) : ℚ) = 0 := pyRound_intCast 0
  have := pyRound_mono (show ((0 : ℤ) : ℚ) ≤ q by exact_mod_cast h)
  omega

theorem pyRound_le_int {q : ℚ} {n : ℤ} (h : q ≤ (n : ℚ)) : pyRound q ≤ n := by
  have := pyRound_mono h
  rwa [pyRound_intCast] at this

theorem round1_mono {a b : ℚ} (h : a ≤ b) : round1 a ≤ round1 b := by
  unfold round1
  have := pyRound_mono (show a * 10 ≤ b * 10 by linarith)
  have hc : (pyRound (a * 10) : ℚ) ≤ (pyRound (b * 10) : ℚ) := by exact_mod_cast this
  linarith

theorem round1_le_of_le {q : ℚ} {n : ℤ} (h : q ≤ (n : ℚ)) : round1 q ≤ (n : ℚ) := by
  unfold round1
  have h10 : q * 10 ≤ ((10 * n : ℤ) : ℚ) := by push_cast; linarith
  have := pyRound_le_int h10
  have hc : (pyRound (q * 10) : ℚ) ≤ ((10 * n : ℤ) : ℚ) := by exact_mod_cast this
  push_cast at hc ⊢
  linarith

/-- A pandas row as the numeric engines access it: `attrs c` is the numeric
value stored in column `c` (`none` when the column is absent from the
dataframe or the cell holds a non-numeric value, both of which read as the
default in the code). -/
structure Row where
  attrs : String → Option ℚ

/-- `row.get(c, 0)` followed by `float(...)` with the `except` branch
yielding `0.0`: a missing or non-numeric cell reads as `0`. -/
def rowVal (r : Row) (c : String) : ℚ := (r.attrs c).getD 0

/-- Python `x or d` applied to an optional numeric value: `None` and `0` are
falsy, so both read as the default `d`. -/
def orDefault (v : Option ℚ) (d : ℚ) : ℚ :=
  match v with
  | none => d
  | some x => if x = 0 then d else x

/-- `int(row.get('overall') or 0)` in `project_player`. -/
def ovrOf (r : Row) : ℤ := pyInt (orDefault (r.attrs "overall") 0)

/-- `int(row.get('potential') or ovr)` in `project_player`. -/
def potOf (r : Row) : ℤ := pyInt (orDefault (r.attrs "potential") ((ovrOf r : ℤ) : ℚ))

/-- `int(row.get('age') or 0)` in `project_player` and in both routes. -/
def ageOf (r : Row) : ℤ := pyInt (orDefault (r.attrs "age") 0)

/-- `float(row.get('value_eur') or 0)` in `project_player`. -/
def valueOf (r : Row) : ℚ := orDefault (r.attrs "value_eur") 0

/-- `years_to_project(age)` from `backend.py`. -/
def years_to_project (age : ℤ) : ℤ :=
  if age ≤ 20 then 5
  else if 21 ≤ age ∧ age ≤ 25 then 4
  else if 26 ≤ age ∧ age ≤ 30 then 3
  else if 31 ≤ age ∧ age ≤ 35 then 2
  else 1

/-- The age-keyed growth multiplier chain in `project_player`. -/
def growthOf (age : ℤ) : ℚ :=
  if age ≤ 20 then 35/100
  else if age ≤ 25 then 20/100
  else if age ≤ 30 then 12/100
  else if age ≤ 35 then 7/100
  else 3/100

/-- One entry of the `projections` list built by `project_player`. -/
structure ProjPoint where
  year_offset : ℕ
  projected_overall : ℚ
  projected_value_eur : ℤ
deriving DecidableEq

/-- The `for y in range(1, years+1)` loop body of `project_player`:
`cur_ovr = min(99, cur_ovr + per_year_ovr)`;
`cur_value = max(0, cur_value * (1 + growth))`; the appended point records
`round(cur_ovr, 1)` and `int(round(cur_value))`, and the *unrounded*
`cur_ovr`/`cur_value` are carried into the next iteration. -/
def projectFrom (perYear growth : ℚ) : ℚ → ℚ → ℕ → ℕ → List ProjPoint
  | _, _, _, 0 => []
  | curOvr, curVal, y, Nat.succ n =>
    { year_offset := y,
      projected_overall := round1 (min 99 (curOvr + perYear)),
      projected_value_eur := pyRound (max 0 (curVal * (1 + growth))) } ::
      projectFrom perYear growth (min 99 (curOvr + perYear))
        (max 0 (curVal * (1 + growth))) (y + 1) n

/-- `project_player(row, years)` from `backend.py`.  `years` is a Python int;
`range(1, years+1)` iterates `max years 0` times, i.e. `years.toNat`. -/
def project_player (r : Row) (years : ℤ) : List ProjPoint :=
  let ovr := ovrOf r
  let pot := potOf r
  let age := ageOf r
  let value := valueOf r
  let perYear : ℚ :=
    if pot > ovr ∧ 0 < years then ((pot - ovr : ℤ) : ℚ) / ((years : ℤ) : ℚ) else 0
  projectFrom perYear (growthOf age) ((ovr : ℤ) : ℚ) value 1 years.toNat

/-- The dictionary returned by `negotiation_range`. -/
structure NegRange where
  min_offer : ℤ
  max_offer : ℤ
deriving DecidableEq

/-- `negotiation_range(current_value, projected_value)` from `backend.py`.
`current_value is None` is modelled by `none`. -/
def negotiation_range (current_value : Option ℤ) (projected_value : ℤ) : NegRange :=
  match current_value with
  | none => ⟨0, 0⟩
  | some cv =>
    if cv ≤ 0 then ⟨0, 0⟩
    else ⟨pyRound ((cv : ℚ) * (7/10)),
          pyRound (((max projected_value cv : ℤ) : ℚ) * (105/100))⟩

/-- The 11 canonical position codes keyed by `POSITION_WEIGHTS`. -/
def validPositions : List String :=
  ["GK", "CB", "LB", "RB", "CDM", "CM", "CAM", "LW", "RW", "ST", "CF"]

/-- The CM entry of the `POSITION_WEIGHTS` table. -/
def cmWeights : List (String × ℚ) :=
  [("passing", 30), ("dribbling", 20), ("defending", 15), ("pace", 15),
   ("shooting", 10), ("physic", 10)]

/-- The `POSITION_WEIGHTS` dictionary of `backend.py`, as an ordered
association list. -/
def POSITION_WEIGHTS : List (String × List (String × ℚ)) :=
  [("GK",
    [("goalkeeping_diving", 20), ("goalkeeping_handling", 20), ("goalkeeping_kicking", 20),
     ("goalkeeping_positioning", 20), ("goalkeeping_reflexes", 20)]),
   ("CB",
    [("defending", 50), ("physic", 20), ("pace", 10), ("passing", 10), ("dribbling", 10)]),
   ("LB",
    [("pace", 30), ("passing", 20), ("defending", 15), ("physic", 10), ("dribbling", 25)]),
   ("RB",
    [("pace", 30), ("passing", 20), ("defending", 15), ("physic", 10), ("dribbling", 25)]),
   ("CDM",
    [("defending", 40), ("passing", 20), ("physic", 15), ("pace", 15), ("dribbling", 10)]),
   ("CM", cmWeights),
   ("CAM",
    [("passing", 30), ("dribbling", 25), ("shooting", 25), ("pace", 10), ("physic", 10)]),
   ("LW",
    [("pace", 35), ("dribbling", 30), ("shooting", 20), ("passing", 15)]),
   ("RW",
    [("pace", 35), ("dribbling", 30), ("shooting", 20), ("passing", 15)]),
   ("ST",
    [("shooting", 40), ("pace", 25), ("dribbling", 20), ("physic", 15),
     ("movement_acceleration", 5)]),
   ("CF",
    [("shooting", 30), ("passing", 25), ("dribbling", 25), ("pace", 20),
     ("movement_acceleration", 5)])]

/-- `POSITION_WEIGHTS.get(position, POSITION_WEIGHTS.get('CM', {}))`: the
weight table for a position, with the CM fallback for an unknown code. -/
def positionWeights (position : String) : List (String × ℚ) :=
  match POSITION_WEIGHTS.find? (fun kv => kv.1 == position) with
  | some kv => kv.2
  | none => cmWeights

/-- Python dict assignment `base_weights[k] = v` on an association list with
unique keys: replace the entry if the key is present, otherwise append. -/
def updateWeight (ws : List (String × ℚ)) (k : String) (v : ℚ) : List (String × ℚ) :=
  if ws.any (fun p => p.1 == k) then
    ws.map (fun p => if p.1 == k then (k, v) else p)
  else ws ++ [(k, v)]

/-- The `if user_weights: for k,v in user_weights.items(): if v is not None:
base_weights[k] = float(v)` merge in `compute_score_for_player`. -/
def mergeWeights (base : List (String × ℚ)) (user : List (String × Option ℚ)) :
    List (String × ℚ) :=
  user.foldl (fun ws kv =>
    match kv.2 with
    | some v => updateWeight ws kv.1 v
    | none => ws) base

/-- `compute_score_for_player(row, position, user_weights)` from `backend.py`. -/
def compute_score_for_player (r : Row) (position : String)
    (user_weights : List (String × Option ℚ)) : ℚ :=
  let base := mergeWeights (positionWeights position) user_weights
  let totalW0 : ℚ := if base = [] then 1 else (base.map (fun p => p.2)).sum
  let totalW : ℚ := if totalW0 = 0 then 1 else totalW0
  let score := (base.map (fun aw => (rowVal r aw.1 / 99) * (aw.2 / totalW))).sum
  round4 (score * 100)

/-- `b` starts with `a` (character lists). -/
def startsB : List Char → List Char → Bool
  | [], _ => true
  | _ :: _, [] => false
  | a :: as, b :: bs => a == b && startsB as bs

/-- `needle` occurs as a contiguous substring of the second list. -/
def containsL (needle : List Char) : List Char → Bool
  | [] => needle.isEmpty
  | b :: bs => startsB needle (b :: bs) || containsL needle bs

/-- Python `needle in hay` on strings. -/
def containsS (needle hay : String) : Bool := containsL needle.toList hay.toList

/-- Python `s.lower()` (ASCII view). -/
def strLower (s : String) : String := ⟨s.toList.map Char.toLower⟩

/-- The target-column resolution in the filter loop of `api_find_players`:
`key.lower()`, then the `'value'/'overall'/'age'` substring heuristics. -/
def resolveCol (key : String) : String :=
  if containsS "value" (strLower key) then "value_eur"
  else if containsS "overall" (strLower key) then "overall"
  else if containsS "age" (strLower key) then "age"
  else strLower key

/-- The shape of one value of the `filters` mapping as the loop classifies it:
a well-formed `[lo, hi]` pair whose two bounds convert to floats, a value that
is not a list/tuple of length ≥ 2 (silently skipped by the `if`), or a value
whose conversion or comparison raises an exception. -/
inductive RangeArg where
  | pair (lo hi : ℚ)
  | badShape
  | raising
deriving DecidableEq

/-- `(df[c].astype(float) >= lo) & (df[c].astype(float) <= hi)` on one cell:
a missing cell (NaN) compares false on both sides and is excluded. -/
def rowInRange (r : Row) (c : String) (lo hi : ℚ) : Bool :=
  match r.attrs c with
  | some v => decide (lo ≤ v) && decide (v ≤ hi)
  | none => false

/-- One iteration of the filter loop in `api_find_players`: an exception is
the `.error` case (caught by the route, which answers `{"players": []}`);
a bad shape or an unresolvable column leaves the frame unchanged. -/
def applyFilter (cols : List String) (df : List Row) (key : String) (rng : RangeArg) :
    Except Unit (List Row) :=
  match rng with
  | .raising => .error ()
  | .badShape => .ok df
  | .pair lo hi =>
    if resolveCol key ∈ cols then
      .ok (df.filter (fun r => rowInRange r (resolveCol key) lo hi))
    else .ok df

/-- The whole `for key, rng in filters.items()` loop. -/
def applyFilters (cols : List String) (filters : List (String × RangeArg))
    (df : List Row) : Except Unit (List Row) :=
  filters.foldlM (fun acc kv => applyFilter cols acc kv.1 kv.2) df

/-- The scoring pass of `api_find_players`: every surviving row is paired
with its score.  (The `except` branch that scores a row as `0` is
unreachable in this pure model, as in the source for numeric frames.) -/
def scoreRows (df : List Row) (position : String)
    (user_weights : List (String × Option ℚ)) : List (ℚ × Row) :=
  df.map (fun r => (compute_score_for_player r position user_weights, r))

/-- Stable insertion of a scored row into the descending-sorted list of the
rows that follow it in store order: it is placed before every element whose
score is less than or equal to its own, exactly as Python's stable
`sorted(..., key=lambda x: x[0], reverse=True)` orders it. -/
def insertDesc (x : ℚ × Row) : List (ℚ × Row) → List (ℚ × Row)
  | [] => [x]
  | y :: ys => if y.1 ≤ x.1 then x :: y :: ys else y :: insertDesc x ys

/-- `sorted(scored, key=lambda x: x[0], reverse=True)`: Python's sort is
stable, and a stable sort by one key has a unique result, here computed by
stable insertion sort. -/
def sortDesc : List (ℚ × Row) → List (ℚ × Row)
  | [] => []
  | x :: xs => insertDesc x (sortDesc xs)

/-- `projections[-1]['projected_value_eur'] if projections else
int(row.get('value_eur') or 0)` in both routes. -/
def lastProjValue (r : Row) (projections : List ProjPoint) : ℤ :=
  match projections.getLast? with
  | some p => p.projected_value_eur
  | none => pyInt (orDefault (r.attrs "value_eur") 0)

/-- The forward-looking fields attached to one output record by the routes. -/
structure PlayerOut where
  momentum_score : ℚ
  projections : List ProjPoint
  negotiation : NegRange

/-- The per-record enrichment block shared by both routes: projection horizon
from `years_to_project(age)`, projections, then the negotiation range from
`int(row.get('value_eur') or 0)` and the last projected value. -/
def enrich (score : ℚ) (r : Row) : PlayerOut :=
  let projections := project_player r (years_to_project (ageOf r))
  { momentum_score := score,
    projections := projections,
    negotiation := negotiation_range
      (some (pyInt (orDefault (r.attrs "value_eur") 0)))
      (lastProjValue r projections) }

/-- `api_find_players` from `backend.py`, from the filter loop to the final
`players_out[:5]` truncation: filters, scoring, stable descending sort,
the `scored_sorted[:50]` pool, enrichment, and the output cap of 5. -/
def api_find_players (cols : List String) (df : List Row) (position : String)
    (filters : List (String × RangeArg))
    (user_weights : List (String × Option ℚ)) : List PlayerOut :=
  match applyFilters cols filters df with
  | .error _ => []
  | .ok d =>
    ((sortDesc (scoreRows d position user_weights)).take 50).map
      (fun sr => enrich sr.1 sr.2) |>.take 5

/-- A pandas row as the name search accesses it after `astype(str)`:
`cells c` is the stringified value of column `c`. -/
structure SRow where
  cells : String → String

/-- The characters removed by Python's default `str.strip()`. -/
def isPySpace (c : Char) : Bool :=
  c == ' ' || c == '\t' || c == '\n' || c == '\r' || c == '\x0b' || c == '\x0c'

/-- Python `s.strip()`. -/
def pyStrip (s : String) : String :=
  ⟨((s.toList.dropWhile isPySpace).reverse.dropWhile isPySpace).reverse⟩

/-- Python `a or b` on an optional string: `None` and `""` are falsy. -/
def pyOrStr (a : Option String) (b : String) : String :=
  match a with
  | none => b
  | some s => if s = "" then b else s

/-- `[c for c in ['short_name','long_name','player_name'] if c in df.columns]`. -/
def nameCols (dfCols : List String) : List String :=
  ["short_name", "long_name", "player_name"].filter (fun c => dfCols.contains c)

/-- The characters that are special in a Python regular expression.
`pandas.Series.str.contains` defaults to `regex=True`, so the query string
is compiled as a regular expression, not matched as a literal substring. -/
def reSpecialChar (c : Char) : Bool :=
  c == '.' || c == '^' || c == '$' || c == '*' || c == '+' || c == '?' ||
  c == '\x7b' || c == '\x7d' || c == '[' || c == ']' || c == '\\' ||
  c == '|' || c == '(' || c == ')'

/-- One element of a compiled pattern in the regex fragment the search
queries can exercise within this model: a literal character or the `.`
wildcard. -/
inductive RTok where
  | lit (c : Char)
  | dot
deriving DecidableEq

/-- Compile a query string as Python `re` does, within the literal-plus-`.`
fragment: `.` becomes the wildcard, a non-special character matches itself,
and any other metacharacter puts the pattern outside the modelled fragment
(`none`). -/
def compileChars : List Char → Option (List RTok)
  | [] => some []
  | c :: cs =>
    if c == '.' then (compileChars cs).map (fun ts => RTok.dot :: ts)
    else if reSpecialChar c then none
    else (compileChars cs).map (fun ts => RTok.lit c :: ts)

/-- `re.compile(q)` restricted to the modelled fragment. -/
def compileQuery (q : String) : Option (List RTok) := compileChars q.toList

/-- One pattern element against one character: a literal matches itself and
`.` matches every character except a newline (no `re.DOTALL` in the code). -/
def tokMatch : RTok → Char → Bool
  | .lit c, d => c == d
  | .dot, d => !(d == '\n')

/-- The pattern matches at the head of the character list. -/
def matchHere : List RTok → List Char → Bool
  | [], _ => true
  | _ :: _, [] => false
  | t :: ts, c :: cs => tokMatch t c && matchHere ts cs

/-- `re.search`: the pattern matches at some position of the list. -/
def reSearch (ts : List RTok) : List Char → Bool
  | [] => ts.isEmpty
  | c :: cs => matchHere ts (c :: cs) || reSearch ts cs

/-- `re.search(pattern, hay)` on a string, as `str.contains(q)` performs it
per cell. -/
def strSearch (ts : List RTok) (hay : String) : Bool := reSearch ts hay.toList

/-- The OR-ed per-column mask of `api_search_player`: the compiled
lowercased query matches (as a regular expression) somewhere in some
configured name column's lowercased stringified value. -/
def rowMatches (ts : List RTok) (ncols : List String) (r : SRow) : Bool :=
  ncols.any (fun c => strSearch ts (strLower (r.cells c)))

/-- The full-row fallback mask used when no name column is configured. -/
def rowMatchesAll (ts : List RTok) (dfCols : List String) (r : SRow) : Bool :=
  dfCols.any (fun c => strSearch ts (strLower (r.cells c)))

/-- An HTTP-ish route response: status code plus result rows. -/
structure SearchResponse where
  status : ℕ
  body : List SRow

/-- Placeholder response for a query whose pattern falls outside the
modelled regex fragment (it uses a metacharacter other than `.`): the code
either answers 200 with the regex matches or, for an invalid pattern such
as `"("`, raises `re.error` (caught as a 500 in the primary route,
unhandled in the variant).  The impossible status 0 marks that no real
behaviour is asserted here; no theorem in this file depends on this value. -/
def unmodelledPatternResponse : SearchResponse := ⟨0, []⟩

/-- `api_search_player` from `src/backend.py`:
`query = (payload.get("player_name") or payload.get("name") or "").strip()`,
blank query answered with `jsonify([])` (status 200), otherwise the
OR-ed `str.contains` regex mask over the configured name columns (or the
full-row fallback) and `head(20)` in store order. -/
def api_search_player (dfCols : List String) (store : List SRow)
    (player_name name : Option String) : SearchResponse :=
  let query := pyStrip (pyOrStr player_name (pyOrStr name ""))
  if query = "" then ⟨200, []⟩
  else
    match compileQuery (strLower query) with
    | some ts =>
      if nameCols dfCols = [] then ⟨200, (store.filter (rowMatchesAll ts dfCols)).take 20⟩
      else ⟨200, (store.filter (rowMatches ts (nameCols dfCols))).take 20⟩
    | none => unmodelledPatternResponse

/-- `api_search_player` from the duplicated variant `src/src/backend.py`:
`name = (payload.get("player_name") or "").strip().lower()`; a blank query is
answered with `({"error": "player_name is required"}, 400)`; with no name
column configured the mask stays the Python bool `False` and `df[False]`
raises an unhandled `KeyError` (a 500, there is no `try` in this route);
otherwise the same `str.contains` regex mask and `head(10)`. -/
def api_search_player_v2 (dfCols : List String) (store : List SRow)
    (player_name : Option String) : SearchResponse :=
  let name := strLower (pyStrip (pyOrStr player_name ""))
  if name = "" then ⟨400, []⟩
  else if nameCols dfCols = [] then ⟨500, []⟩
  else
    match compileQuery name with
    | some ts => ⟨200, (store.filter (rowMatches ts (nameCols dfCols))).take 10⟩
    | none => unmodelledPatternResponse

theorem projectFrom_length (p g : ℚ) :
    ∀ (n : ℕ) (c v : ℚ) (y : ℕ), (projectFrom p g c v y n).length = n := by
  intro n
  induction n with
  | zero => intro c v y; simp [projectFrom]
  | succ m ih => intro c v y; simp [projectFrom, ih]

theorem projectFrom_map_offset (p g : ℚ) :
    ∀ (n : ℕ) (c v : ℚ) (y : ℕ),
      (projectFrom p g c v y n).map (fun pt => pt.year_offset) = List.range' y n := by
  intro n
  induction n with
  | zero => intro c v y; simp [projectFrom]
  | succ m ih => intro c v y; simp [projectFrom, ih, List.range'_succ]

theorem projectFrom_overall_le (p g : ℚ) :
    ∀ (n : ℕ) (c v : ℚ) (y : ℕ),
      ∀ pt ∈ projectFrom p g c v y n, pt.projected_overall ≤ 99 := by
  intro n
  induction n with
  | zero => intro c v y pt hpt; simp [projectFrom] at hpt
  | succ m ih =>
    intro c v y pt hpt
    rw [projectFrom] at hpt
    rcases List.mem_cons.mp hpt with h | h
    · subst h
      have h99 : min 99 (c + p) ≤ ((99 : ℤ) : ℚ) := by
        have := min_le_left (99 : ℚ) (c + p)
        push_cast
        linarith
      have := round1_le_of_le h99
      push_cast at this
      simpa using this
    · exact ih _ _ _ pt h

theorem projectFrom_overall_chain (p g : ℚ) (hp : 0 ≤ p) :
    ∀ (n : ℕ) (c v : ℚ) (y : ℕ),
      List.Chain' (· ≤ ·) ((projectFrom p g c v y n).map (fun pt => pt.projected_overall)) := by
  intro n
  induction n with
  | zero => intro c v y; simp [projectFrom]
  | succ m ih =>
    intro c v y
    rw [projectFrom, List.map_cons, List.chain'_cons']
    refine ⟨?_, ih _ _ _⟩
    intro b hb
    cases m with
    | zero => simp [projectFrom] at hb
    | succ k =>
      rw [projectFrom, List.map_cons] at hb
      simp only [List.head?_cons, Option.mem_def, Option.some.injEq] at hb
      subst hb
      apply round1_mono
      refine le_min ?_ ?_
      · exact min_le_left _ _
      · have := min_le_left (99 : ℚ) (c + p)
        have := min_le_right (99 : ℚ) (c + p)
        linarith [min_le_left (99 : ℚ) (c + p)]

theorem project_player_perYear_nonneg (r : Row) (years : ℤ) :
    0 ≤ (if potOf r > ovrOf r ∧ 0 < years
      then ((potOf r - ovrOf r : ℤ) : ℚ) / ((years : ℤ) : ℚ) else 0) := by
  split_ifs with h
  · obtain ⟨h1, h2⟩ := h
    apply div_nonneg
    · have hz : (0 : ℤ) ≤ potOf r - ovrOf r := by omega
      exact_mod_cast hz
    · have hz : (0 : ℤ) ≤ years := by omega
      exact_mod_cast hz
  · exact le_refl 0

/-- C4: `project(record, 0)` is empty; `project(record, years)` has exactly
`years` points with strictly increasing `year_offset` `1..years` (stated as
equality with `List.range' 1 years`); every point's `projected_overall` is
capped at 99; and the `projected_overall` sequence is monotonically
non-decreasing (this holds whether or not `potential > overall`, since the
per-year increment is 0 when `potential ≤ overall`). -/
theorem C4_projection_shape (r : Row) (years : ℤ) :
    project_player r 0 = [] ∧
    (project_player r years).length = years.toNat ∧
    (project_player r years).map (fun pt => pt.year_offset) = List.range' 1 years.toNat ∧
    (∀ pt ∈ project_player r years, pt.projected_overall ≤ 99) ∧
    List.Chain' (· ≤ ·)
      ((project_player r years).map (fun pt => pt.projected_overall)) := by
  refine ⟨rfl, ?_, ?_, ?_, ?_⟩
  · exact projectFrom_length _ _ _ _ _ _
  · exact projectFrom_map_offset _ _ _ _ _ _
  · exact projectFrom_overall_le _ _ _ _ _ _
  · exact projectFrom_overall_chain _ _ (project_player_perYear_nonneg r years) _ _ _ _

/-- A concrete bounded record: overall 70, potential 70, age 23, value 3. -/
def sampleRow : Row :=
  ⟨fun c =>
    if c = "overall" then some 70
    else if c = "potential" then some 70
    else if c = "age" then some 23
    else if c = "value_eur" then some 3
    else none⟩

theorem C4_witness :
    ((⟨1, 70, 4⟩ : ProjPoint)).projected_overall ≤ 99 := by
  have hev : project_player sampleRow 2 = [⟨1, 70, 4⟩, ⟨2, 70, 4⟩] := by
    norm_num +decide [project_player, projectFrom, sampleRow, ovrOf, potOf,
      ageOf, valueOf, orDefault, pyInt, growthOf, round1, pyRound, max_def, min_def]
  exact (C4_projection_shape sampleRow 2).2.2.2.1 ⟨1, 70, 4⟩
    (by rw [hev]; exact List.mem_cons_self _ _)

/-- C5: `negotiate` returns `{0,0}` when the current value is undefined or
non-positive, and otherwise `min = round(cv*0.7)`,
`max = round(max(pv,cv)*1.05)`; in particular `negotiate(0,x) = {0,0}` and
`negotiate(100,50) = {70,105}`. -/
theorem C5_negotiation_spec :
    (∀ pv : ℤ, negotiation_range none pv = ⟨0, 0⟩) ∧
    (∀ cv pv : ℤ, cv ≤ 0 → negotiation_range (some cv) pv = ⟨0, 0⟩) ∧
    (∀ cv pv : ℤ, 0 < cv →
      negotiation_range (some cv) pv =
        ⟨pyRound ((cv : ℚ) * (7/10)),
         pyRound (((max pv cv : ℤ) : ℚ) * (105/100))⟩) ∧
    (∀ pv : ℤ, negotiation_range (some 0) pv = ⟨0, 0⟩) ∧
    negotiation_range (some 100) 50 = ⟨70, 105⟩ := by
  refine ⟨fun pv => rfl, ?_, ?_, fun pv => rfl,
    by norm_num [negotiation_range, pyRound, max_def]⟩
  · intro cv pv h
    simp [negotiation_range, h]
  · intro cv pv h
    simp [negotiation_range, not_le.mpr h]

theorem C5_witness :
    negotiation_range (some (-3)) 7 = ⟨0, 0⟩ ∧
    negotiation_range (some 100) 50 = ⟨70, 105⟩ :=
  ⟨C5_negotiation_spec.2.1 (-3) 7 (by decide), C5_negotiation_spec.2.2.2.2⟩

/-- C6: for every pair of inputs, the negotiation range satisfies
`0 ≤ min_offer ≤ max_offer` (both offers are integers by construction),
including the degenerate `current_value ≤ 0` case. -/
theorem C6_negotiation_invariant (cv : Option ℤ) (pv : ℤ) :
    0 ≤ (negotiation_range cv pv).min_offer ∧
    (negotiation_range cv pv).min_offer ≤ (negotiation_range cv pv).max_offer ∧
    0 ≤ (negotiation_range cv pv).max_offer := by
  match cv with
  | none => exact ⟨le_refl 0, le_refl 0, le_refl 0⟩
  | some c =>
    by_cases hc : c ≤ 0
    · simp [negotiation_range, hc]
    · push_neg at hc
      simp only [negotiation_range, if_neg (not_le.mpr hc)]
      have hc0 : (0 : ℚ) ≤ (c : ℚ) := by exact_mod_cast le_of_lt hc
      have hmin : (0 : ℚ) ≤ (c : ℚ) * (7/10) := by positivity
      have h1 : 0 ≤ pyRound ((c : ℚ) * (7/10)) := pyRound_nonneg hmin
      have hcm : (c : ℚ) ≤ ((max pv c : ℤ) : ℚ) := by
        have := le_max_right pv c
        exact_mod_cast this
      have h2 : (c : ℚ) * (7/10) ≤ ((max pv c : ℤ) : ℚ) * (105/100) := by nlinarith
      have h3 := pyRound_mono h2
      exact ⟨h1, h3, le_trans h1 h3⟩

/-- C10: `years_to_project` is total over `ℤ` with value in `[1,5]`; hence
the projections attached by the routes are non-empty and the last projected
value is taken from the projection sequence (the empty-list fallback in
`lastProjValue` is unreachable at route call sites). -/
theorem C10_horizon_total (age : ℤ) (s : ℚ) (r : Row) :
    (1 ≤ years_to_project age ∧ years_to_project age ≤ 5) ∧
    (enrich s r).projections ≠ [] ∧
    ∃ p, (project_player r (years_to_project (ageOf r))).getLast? = some p ∧
      lastProjValue r (project_player r (years_to_project (ageOf r))) =
        p.projected_value_eur := by
  have hy : ∀ a : ℤ, 1 ≤ years_to_project a ∧ years_to_project a ≤ 5 := by
    intro a
    unfold years_to_project
    split_ifs <;> omega
  have hne : project_player r (years_to_project (ageOf r)) ≠ [] := by
    have hlen : (project_player r (years_to_project (ageOf r))).length =
        (years_to_project (ageOf r)).toNat := projectFrom_length _ _ _ _ _ _
    have h1 := (hy (ageOf r)).1
    have hpos : 0 < (project_player r (years_to_project (ageOf r))).length := by
      rw [hlen]; omega
    exact List.ne_nil_of_length_pos hpos
  refine ⟨hy age, ?_, ?_⟩
  · simpa [enrich] using hne
  · obtain ⟨p, hp⟩ := Option.isSome_iff_exists.mp (List.getLast?_isSome.mpr hne)
    exact ⟨p, hp, by rw [lastProjValue, hp]⟩

/-- The projected value reported for year offset `k+1` (0 for an
out-of-range index). -/
def projValAt (r : Row) (years : ℤ) (k : ℕ) : ℤ :=
  ((project_player r years).map (fun p => p.projected_value_eur)).getD k 0

/-- Claim C1 as stated: each year's reported value would be the
round-then-grow image of the previous year's *reported* (rounded) value. -/
def roundCarriedClaim : Prop :=
  ∀ (r : Row) (years : ℤ), 1 ≤ years → ∀ k : ℕ, k + 1 < years.toNat →
    projValAt r years (k + 1) =
      pyRound (max 0 ((projValAt r years k : ℚ) * (1 + growthOf (ageOf r))))

/-- C1 fails on the code: for the record
`{overall: 70, potential: 70, age: 23, value_eur: 3}` and 2 projected years
the code reports values `[4, 4]` (it carries the unrounded `3.6` forward,
giving `round(4.32) = 4`), while round-then-grow of the reported year-1
value `4` would give `round(4.8) = 5`. -/
theorem C1_counterexample : ¬ roundCarriedClaim := by
  intro h
  have h2 := h sampleRow 2 (by norm_num) 0 (by norm_num)
  have hv : (project_player sampleRow 2).map (fun p => p.projected_value_eur) = [4, 4] := by
    norm_num +decide [project_player, projectFrom, sampleRow, ovrOf, potOf,
      ageOf, valueOf, orDefault, pyInt, growthOf, round1, pyRound, max_def, min_def]
  have hage : ageOf sampleRow = 23 := by
    norm_num +decide [ageOf, sampleRow, orDefault, pyInt]
  rw [projValAt, projValAt, hv, hage] at h2
  norm_num [growthOf, pyRound, max_def] at h2

/-- The unrounded compounded value sequence actually carried by the loop:
`u 0 = value`, `u (k+1) = max 0 (u k * (1 + growth))`. -/
def valIter (g v : ℚ) : ℕ → ℚ
  | 0 => v
  | k + 1 => max 0 (valIter g v k * (1 + g))

theorem valIter_shift (g v : ℚ) :
    ∀ k : ℕ, valIter g v (k + 1) = valIter g (max 0 (v * (1 + g))) k := by
  intro k
  induction k with
  | zero => rfl
  | succ m ih => rw [valIter, ih]; rfl

theorem projectFrom_map_value (p g : ℚ) :
    ∀ (n : ℕ) (c v : ℚ) (y : ℕ),
      (projectFrom p g c v y n).map (fun pt => pt.projected_value_eur) =
        (List.range n).map (fun k => pyRound (valIter g v (k + 1))) := by
  intro n
  induction n with
  | zero => intro c v y; simp [projectFrom]
  | succ m ih =>
    intro c v y
    rw [projectFrom, List.map_cons, List.range_succ_eq_map, List.map_cons,
      List.map_map, ih]
    refine congrArg₂ _ ?_ ?_
    · rfl
    · refine List.map_congr_left ?_
      intro k _
      simp only [Function.comp]
      rw [← valIter_shift]

/-- C1 amended: the growth multiplier is still the age-bracket rate and each
year's result is floored at 0 and reported as its rounding to the nearest
integer, but the *unrounded* value (not the rounded one) is the basis for
the next year's growth: the value reported for year offset `k+1` is
`round(u (k+1))` where `u 0 = value` and `u (j+1) = max 0 (u j * (1+g))`. -/
theorem C1_value_unrounded_carry (r : Row) (years : ℤ) :
    (project_player r years).map (fun pt => pt.projected_value_eur) =
      (List.range years.toNat).map
        (fun k => pyRound (valIter (growthOf (ageOf r)) (valueOf r) (k + 1))) :=
  projectFrom_map_value _ _ _ _ _ _

theorem scoreSum_bounds (r : Row) (hr : ∀ a : String, 0 ≤ rowVal r a ∧ rowVal r a ≤ 99) :
    ∀ (ws : List (String × ℚ)) (W : ℚ), 0 < W → (∀ p ∈ ws, 0 ≤ p.2) →
      0 ≤ (ws.map (fun aw => (rowVal r aw.1 / 99) * (aw.2 / W))).sum ∧
      (ws.map (fun aw => (rowVal r aw.1 / 99) * (aw.2 / W))).sum ≤
        (ws.map (fun p => p.2)).sum / W := by
  intro ws
  induction ws with
  | nil => intro W hW hws; simp
  | cons a t ih =>
    intro W hW hws
    have ha : 0 ≤ a.2 := hws a (List.mem_cons_self a t)
    have ht : ∀ p ∈ t, 0 ≤ p.2 := fun p hp => hws p (List.mem_cons_of_mem a hp)
    obtain ⟨ih1, ih2⟩ := ih W hW ht
    obtain ⟨hv0, hv99⟩ := hr a.1
    have hval0 : 0 ≤ rowVal r a.1 / 99 := by positivity
    have hval1 : rowVal r a.1 / 99 ≤ 1 := by
      rw [div_le_one (by norm_num : (0:ℚ) < 99)]; exact hv99
    have hw : 0 ≤ a.2 / W := by positivity
    have hterm0 : 0 ≤ (rowVal r a.1 / 99) * (a.2 / W) := by positivity
    have hterm1 : (rowVal r a.1 / 99) * (a.2 / W) ≤ a.2 / W := by
      calc (rowVal r a.1 / 99) * (a.2 / W) ≤ 1 * (a.2 / W) :=
            mul_le_mul_of_nonneg_right hval1 hw
        _ = a.2 / W := one_mul _
    simp only [List.map_cons, List.sum_cons]
    constructor
    · linarith
    · rw [add_div]
      linarith

/-- The twelve weight lists a lookup can produce (the eleven table entries
and the CM fallback). -/
def allWeightTables : List (List (String × ℚ)) :=
  POSITION_WEIGHTS.map (fun kv => kv.2) ++ [cmWeights]

theorem positionWeights_mem (position : String) :
    positionWeights position ∈ allWeightTables := by
  unfold positionWeights
  cases h : POSITION_WEIGHTS.find? (fun kv => kv.1 == position) with
  | none =>
    simp [allWeightTables]
  | some kv =>
    exact List.mem_append_left _
      (List.mem_map_of_mem _ (List.mem_of_find?_eq_some h))

theorem allWeightTables_ok :
    ∀ ws ∈ allWeightTables, (∀ p ∈ ws, 0 ≤ p.2) ∧
      0 < (ws.map (fun p => p.2)).sum ∧ ws ≠ [] := by
  intro ws hws
  simp only [allWeightTables, POSITION_WEIGHTS, cmWeights, List.map_cons,
    List.map_nil, List.cons_append, List.nil_append, List.mem_cons,
    List.not_mem_nil, or_false] at hws
  rcases hws with rfl | rfl | rfl | rfl | rfl | rfl | rfl | rfl | rfl | rfl | rfl | rfl <;>
    exact ⟨by decide, by norm_num, by simp⟩

theorem positionWeights_nonneg (position : String) :
    ∀ p ∈ positionWeights position, 0 ≤ p.2 :=
  (allWeightTables_ok _ (positionWeights_mem position)).1

theorem positionWeights_sum_pos (position : String) :
    0 < ((positionWeights position).map (fun p => p.2)).sum :=
  (allWeightTables_ok _ (positionWeights_mem position)).2.1

theorem positionWeights_ne_nil (position : String) : positionWeights position ≠ [] :=
  (allWeightTables_ok _ (positionWeights_mem position)).2.2

theorem round4_bounds {x : ℚ} (h0 : 0 ≤ x) (h1 : x ≤ 100) :
    0 ≤ round4 x ∧ round4 x ≤ 100 := by
  unfold round4
  constructor
  · have : 0 ≤ pyRound (x * 10000) := pyRound_nonneg (by positivity)
    have hc : (0 : ℚ) ≤ (pyRound (x * 10000) : ℚ) := by exact_mod_cast this
    linarith
  · have hb : x * 10000 ≤ ((1000000 : ℤ) : ℚ) := by push_cast; linarith
    have := pyRound_le_int hb
    have hc : (pyRound (x * 10000) : ℚ) ≤ ((1000000 : ℤ) : ℚ) := by exact_mod_cast this
    push_cast at hc
    linarith

/-- C2 amended: for every valid position code and every record whose stored
attribute values all lie within the domain rating range `[0, 99]` (and with
no weight overrides), the score lies in `[0, 100]`.  Without the attribute
bound the score is unbounded, see the counterexample. -/
theorem C2_score_bounds (r : Row) (position : String)
    (_hpos : position ∈ validPositions)
    (hr : ∀ a : String, 0 ≤ rowVal r a ∧ rowVal r a ≤ 99) :
    0 ≤ compute_score_for_player r position [] ∧
    compute_score_for_player r position [] ≤ 100 := by
  have hW : 0 < ((positionWeights position).map (fun p => p.2)).sum :=
    positionWeights_sum_pos position
  have hws := positionWeights_nonneg position
  have hne := positionWeights_ne_nil position
  obtain ⟨hs0, hs1⟩ := scoreSum_bounds r hr (positionWeights position) _ hW hws
  have hdiv : ((positionWeights position).map (fun p => p.2)).sum /
      ((positionWeights position).map (fun p => p.2)).sum = 1 :=
    div_self (ne_of_gt hW)
  rw [hdiv] at hs1
  unfold compute_score_for_player mergeWeights
  simp only [List.foldl_nil, if_neg hne, if_neg (ne_of_gt hW)]
  exact round4_bounds (by linarith) (by linarith)

/-- A record with `defending = 990`: attribute values are coerced numerics,
nothing clamps them to 99. -/
def highRow : Row := ⟨fun c => if c = "defending" then some 990 else none⟩

/-- C2 fails as stated: for the (valid) position CB and the record with
`defending = 990`, the score is 500, outside `[0, 100]`. -/
theorem C2_counterexample :
    (100 : ℚ) < compute_score_for_player highRow "CB" [] := by
  have hcb : positionWeights "CB" =
      [("defending", 50), ("physic", 20), ("pace", 10), ("passing", 10),
       ("dribbling", 10)] := rfl
  unfold compute_score_for_player mergeWeights
  rw [List.foldl_nil, hcb]
  norm_num +decide [highRow, rowVal, round4, pyRound]

/-- A record with every attribute stored as 50. -/
def boundedRow : Row := ⟨fun _ => some 50⟩

theorem C2_witness :
    0 ≤ compute_score_for_player boundedRow "ST" [] ∧
    compute_score_for_player boundedRow "ST" [] ≤ 100 :=
  C2_score_bounds boundedRow "ST" (by decide)
    (fun a => ⟨by norm_num [rowVal, boundedRow], by norm_num [rowVal, boundedRow]⟩)

theorem applyFilter_ok_of_ne_raising (cols : List String) (df : List Row)
    (key : String) (rng : RangeArg) (h : rng ≠ RangeArg.raising) :
    ∃ d, applyFilter cols df key rng = Except.ok d := by
  match rng with
  | .raising => exact absurd rfl h
  | .badShape => exact ⟨df, rfl⟩
  | .pair lo hi =>
    have he : applyFilter cols df key (RangeArg.pair lo hi) =
        if resolveCol key ∈ cols then
          Except.ok (df.filter (fun r => rowInRange r (resolveCol key) lo hi))
        else Except.ok df := rfl
    rw [he]
    by_cases hc : resolveCol key ∈ cols
    · exact ⟨_, by rw [if_pos hc]⟩
    · exact ⟨df, by rw [if_neg hc]⟩

theorem applyFilters_error_of_raising (cols : List String) :
    ∀ (filters : List (String × RangeArg)) (df : List Row),
      (∃ kv ∈ filters, kv.2 = RangeArg.raising) →
      applyFilters cols filters df = Except.error () := by
  intro filters
  induction filters with
  | nil => intro df h; obtain ⟨kv, hkv, _⟩ := h; exact absurd hkv (List.not_mem_nil kv)
  | cons a t ih =>
    intro df h
    by_cases ha : a.2 = RangeArg.raising
    · show (applyFilter cols df a.1 a.2 >>= fun d => applyFilters cols t d) = _
      rw [ha]
      rfl
    · obtain ⟨kv, hkv, hr⟩ := h
      rcases List.mem_cons.mp hkv with rfl | hmem
      · exact absurd hr ha
      · obtain ⟨d, hd⟩ := applyFilter_ok_of_ne_raising cols df a.1 a.2 ha
        show (applyFilter cols df a.1 a.2 >>= fun x => applyFilters cols t x) = _
        rw [hd]
        exact ih d ⟨kv, hmem, hr⟩

/-- C3: an exception while resolving or applying any single named filter
(the `raising` case) makes the route answer the empty result set, while a
well-formed range whose key resolves to a column absent from the store is a
silent no-op: the frame passes through unchanged. -/
theorem C3_filter_failure_policy :
    (∀ (cols : List String) (df : List Row) (position : String)
        (filters : List (String × RangeArg)) (uw : List (String × Option ℚ)),
      (∃ kv ∈ filters, kv.2 = RangeArg.raising) →
        api_find_players cols df position filters uw = []) ∧
    (∀ (cols : List String) (df : List Row) (key : String) (lo hi : ℚ),
      resolveCol key ∉ cols →
        applyFilter cols df key (RangeArg.pair lo hi) = Except.ok df ∧
        applyFilters cols [(key, RangeArg.pair lo hi)] df = Except.ok df) := by
  constructor
  · intro cols df position filters uw h
    unfold api_find_players
    rw [applyFilters_error_of_raising cols filters df h]
  · intro cols df key lo hi h
    have h1 : applyFilter cols df key (RangeArg.pair lo hi) = Except.ok df := by
      have he : applyFilter cols df key (RangeArg.pair lo hi) =
          if resolveCol key ∈ cols then
            Except.ok (df.filter (fun r => rowInRange r (resolveCol key) lo hi))
          else Except.ok df := rfl
      rw [he, if_neg h]
    refine ⟨h1, ?_⟩
    show (applyFilter cols df key (RangeArg.pair lo hi) >>= fun d => applyFilters cols [] d) = _
    rw [h1]
    rfl

theorem C3_witness :
    api_find_players [] [] "CM" [("bad", RangeArg.raising)] [] = [] ∧
    applyFilters ["age"] [("zzz", RangeArg.pair 1 2)] [] = Except.ok [] :=
  ⟨C3_filter_failure_policy.1 [] [] "CM" [("bad", RangeArg.raising)] []
      ⟨("bad", RangeArg.raising), List.mem_cons_self _ _, rfl⟩,
   (C3_filter_failure_policy.2 ["age"] [] "zzz" 1 2 (by decide)).2⟩

theorem insertDesc_perm (x : ℚ × Row) :
    ∀ l : List (ℚ × Row), List.Perm (insertDesc x l) (x :: l) := by
  intro l
  induction l with
  | nil => exact List.Perm.refl _
  | cons y ys ih =>
    unfold insertDesc
    by_cases h : y.1 ≤ x.1
    · rw [if_pos h]
    · rw [if_neg h]
      exact List.Perm.trans (List.Perm.cons y ih) (List.Perm.swap x y ys)

theorem sortDesc_perm : ∀ l : List (ℚ × Row), List.Perm (sortDesc l) l := by
  intro l
  induction l with
  | nil => exact List.Perm.refl _
  | cons a xs ih =>
    exact List.Perm.trans (insertDesc_perm a (sortDesc xs)) (List.Perm.cons a ih)

theorem mem_insertDesc {x z : ℚ × Row} :
    ∀ l : List (ℚ × Row), z ∈ insertDesc x l ↔ z = x ∨ z ∈ l := by
  intro l
  rw [(insertDesc_perm x l).mem_iff, List.mem_cons]

theorem insertDesc_pairwise (x : ℚ × Row) :
    ∀ l : List (ℚ × Row), List.Pairwise (fun a b => b.1 ≤ a.1) l →
      List.Pairwise (fun a b => b.1 ≤ a.1) (insertDesc x l) := by
  intro l
  induction l with
  | nil => intro _; exact List.pairwise_singleton _ x
  | cons y ys ih =>
    intro hp
    obtain ⟨hy, hys⟩ := List.pairwise_cons.mp hp
    unfold insertDesc
    by_cases h : y.1 ≤ x.1
    · rw [if_pos h]
      refine List.pairwise_cons.mpr ⟨?_, hp⟩
      intro z hz
      rcases List.mem_cons.mp hz with rfl | hz
      · exact h
      · exact le_trans (hy z hz) h
    · rw [if_neg h]
      refine List.pairwise_cons.mpr ⟨?_, ih hys⟩
      intro z hz
      rcases (mem_insertDesc ys).mp hz with rfl | hz
      · exact le_of_not_le h
      · exact hy z hz

theorem sortDesc_pairwise :
    ∀ l : List (ℚ × Row), List.Pairwise (fun a b => b.1 ≤ a.1) (sortDesc l) := by
  intro l
  induction l with
  | nil => exact List.Pairwise.nil
  | cons a xs ih => exact insertDesc_pairwise a (sortDesc xs) ih

theorem filter_insertDesc (s : ℚ) (x : ℚ × Row) :
    ∀ l : List (ℚ × Row),
      (insertDesc x l).filter (fun z => z.1 == s) =
        if x.1 == s then x :: l.filter (fun z => z.1 == s)
        else l.filter (fun z => z.1 == s) := by
  intro l
  induction l with
  | nil =>
    unfold insertDesc
    by_cases h : x.1 == s
    · simp [List.filter, h]
    · simp [List.filter, h]
  | cons y ys ih =>
    unfold insertDesc
    by_cases h : y.1 ≤ x.1
    · rw [if_pos h]
      by_cases hx : x.1 == s
      · simp [List.filter_cons, hx]
      · simp [List.filter_cons, hx]
    · rw [if_neg h]
      rw [List.filter_cons, List.filter_cons, ih]
      by_cases hx : x.1 == s
      · rw [if_pos hx]
        have hxs : x.1 = s := by simpa using hx
        have hy : ¬(y.1 == s) = true := by
          intro hc
          have hys : y.1 = s := by simpa using hc
          exact h (le_of_eq (hys.trans hxs.symm))
        simp only [hx, if_true]
        rw [if_neg hy, if_neg hy]
      · rw [if_neg hx, if_neg hx]

theorem sortDesc_filter (s : ℚ) :
    ∀ l : List (ℚ × Row),
      (sortDesc l).filter (fun z => z.1 == s) = l.filter (fun z => z.1 == s) := by
  intro l
  induction l with
  | nil => rfl
  | cons a xs ih =>
    show (insertDesc a (sortDesc xs)).filter _ = _
    rw [filter_insertDesc, List.filter_cons]
    by_cases ha : a.1 == s
    · rw [if_pos ha, if_pos ha, ih]
    · rw [if_neg ha, if_neg ha, ih]

/-- C7: with the filters resolved to a surviving frame `d`, the route output
is the enrichment of the first 5 of the first 50 of the stably
descending-sorted scored rows: at most 5 results from a pool of at most 50;
the sorted list is a permutation of the scored list, is sorted descending by
score, and is stable (for every score value, the records having that score
appear in store order: filtering by any score gives the same subsequence as
in the unsorted scored list); and every surviving record is scored. -/
theorem C7_rank_and_truncate (cols : List String) (df : List Row)
    (position : String) (filters : List (String × RangeArg))
    (uw : List (String × Option ℚ)) (d : List Row)
    (hok : applyFilters cols filters df = Except.ok d) :
    api_find_players cols df position filters uw =
      (((sortDesc (scoreRows d position uw)).take 50).map
        (fun sr => enrich sr.1 sr.2)).take 5 ∧
    (api_find_players cols df position filters uw).length ≤ 5 ∧
    ((sortDesc (scoreRows d position uw)).take 50).length ≤ 50 ∧
    List.Perm (sortDesc (scoreRows d position uw)) (scoreRows d position uw) ∧
    List.Pairwise (fun a b => b.1 ≤ a.1) (sortDesc (scoreRows d position uw)) ∧
    (∀ s : ℚ, (sortDesc (scoreRows d position uw)).filter (fun z => z.1 == s) =
      (scoreRows d position uw).filter (fun z => z.1 == s)) ∧
    (∀ r ∈ d, (compute_score_for_player r position uw, r) ∈ scoreRows d position uw) := by
  have happ : api_find_players cols df position filters uw =
      (((sortDesc (scoreRows d position uw)).take 50).map
        (fun sr => enrich sr.1 sr.2)).take 5 := by
    unfold api_find_players
    rw [hok]
  refine ⟨happ, ?_, List.length_take_le _ _, sortDesc_perm _, sortDesc_pairwise _,
    fun s => sortDesc_filter s _, ?_⟩
  · rw [happ]; exact List.length_take_le _ _
  · intro r hr
    exact List.mem_map_of_mem _ hr

theorem C7_witness :
    (api_find_players [] [] "CM" [] []).length ≤ 5 :=
  (C7_rank_and_truncate [] [] "CM" [] [] [] rfl).2.1

/-- C8 fails as stated for the duplicated variant `src/src/backend.py`: an
all-whitespace query makes its search route answer the error response
`({"error": "player_name is required"}, 400)`, not an empty result set with
a success status. -/
theorem C8_counterexample :
    (api_search_player_v2 [] [] (some "   ")).status = 400 ∧
    ¬ (api_search_player_v2 [] [] (some "   ")).status = 200 := by
  constructor <;> decide

/-- C8 amended: in the primary backend (`src/backend.py`) an empty or
all-whitespace query is answered with an empty result set and success
status 200; the duplicated variant (`src/src/backend.py`) instead answers a
400 error response for the same input. -/
theorem C8_blank_query :
    (∀ (dfCols : List String) (store : List SRow) (a b : Option String),
      pyStrip (pyOrStr a (pyOrStr b "")) = "" →
        api_search_player dfCols store a b = ⟨200, []⟩) ∧
    (∀ (dfCols : List String) (store : List SRow) (a : Option String),
      strLower (pyStrip (pyOrStr a "")) = "" →
        api_search_player_v2 dfCols store a = ⟨400, []⟩) := by
  constructor
  · intro dfCols store a b h
    unfold api_search_player
    rw [h]
    rfl
  · intro dfCols store a h
    unfold api_search_player_v2
    rw [h]
    rfl

theorem C8_witness :
    api_search_player ["short_name"] [] (some " \t ") none = ⟨200, []⟩ ∧
    api_search_player_v2 ["short_name"] [] (some " \t ") = ⟨400, []⟩ :=
  ⟨C8_blank_query.1 ["short_name"] [] (some " \t ") none (by decide),
   C8_blank_query.2 ["short_name"] [] (some " \t ") (by decide)⟩

/-- The match notion asserted by the claim (the spec's words, for the
refinement comparison): some configured name field contains the query as a
literal case-insensitive substring. -/
def literalNameMatch (q : String) (ncols : List String) (r : SRow) : Bool :=
  ncols.any (fun c => containsS q (strLower (r.cells c)))

theorem compileChars_lits :
    ∀ l : List Char, (∀ c ∈ l, reSpecialChar c = false) →
      compileChars l = some (l.map RTok.lit) := by
  intro l
  induction l with
  | nil => intro _; rfl
  | cons c cs ih =>
    intro h
    have hc : reSpecialChar c = false := h c (List.mem_cons_self c cs)
    have hdot : (c == '.') = false := by
      cases hcc : c == '.'
      · rfl
      · have : c = '.' := by simpa using hcc
        subst this
        exact absurd hc (by decide)
    unfold compileChars
    rw [hdot]
    simp only [Bool.false_eq_true, if_false, hc,
      ih (fun d hd => h d (List.mem_cons_of_mem c hd))]
    rfl

theorem matchHere_lits :
    ∀ (n h : List Char), matchHere (n.map RTok.lit) h = startsB n h := by
  intro n
  induction n with
  | nil => intro h; rfl
  | cons c cs ih =>
    intro h
    cases h with
    | nil => rfl
    | cons d ds =>
      show ((c == d) && matchHere (cs.map RTok.lit) ds) = ((c == d) && startsB cs ds)
      rw [ih]

theorem reSearch_lits :
    ∀ (h n : List Char), reSearch (n.map RTok.lit) h = containsL n h := by
  intro h
  induction h with
  | nil =>
    intro n
    show (n.map RTok.lit).isEmpty = n.isEmpty
    cases n <;> rfl
  | cons c cs ih =>
    intro n
    show (matchHere (n.map RTok.lit) (c :: cs) || reSearch (n.map RTok.lit) cs) =
      (startsB n (c :: cs) || containsL n cs)
    rw [matchHere_lits, ih]

theorem rowMatches_lits (n : String) (cols : List String) (r : SRow) :
    rowMatches (n.toList.map RTok.lit) cols r = literalNameMatch n cols r := by
  unfold rowMatches literalNameMatch
  refine congrArg (List.any cols) (funext fun c => ?_)
  show reSearch (n.toList.map RTok.lit) (strLower (r.cells c)).toList = _
  rw [reSearch_lits]
  rfl

theorem strLower_ne_empty {s : String} (h : s ≠ "") : strLower s ≠ "" := by
  intro hc
  apply h
  have hdata : s.toList.map Char.toLower = [] := congrArg String.toList hc
  have hnil : s.toList = [] := List.map_eq_nil_iff.mp hdata
  cases s with
  | mk data => cases hnil; rfl

/-- Claim C9 as stated (its only-if direction): every record returned by the
name search has the query as a literal case-insensitive substring of some
configured name field, for every non-blank query string. -/
def substrSearchClaim : Prop :=
  ∀ (dfCols : List String) (store : List SRow) (q : String), pyStrip q ≠ "" →
    ∀ r ∈ (api_search_player dfCols store (some q) none).body,
      literalNameMatch (strLower (pyStrip q)) (nameCols dfCols) r = true

/-- A record whose every stringified cell is `"abc"`. -/
def abcRow : SRow := ⟨fun _ => "abc"⟩

/-- C9 fails as stated: `str.contains` defaults to `regex=True`, so the
query is a regular expression, not a literal substring.  For the query
`"a.c"` the route returns the record whose short_name is `"abc"` (the `.`
wildcard matches `b`), yet no name field contains `"a.c"` as a substring. -/
theorem C9_counterexample : ¬ substrSearchClaim := by
  intro h
  have hbody : (api_search_player ["short_name"] [abcRow] (some "a.c") none).body =
      [abcRow] := rfl
  have hmem : abcRow ∈ (api_search_player ["short_name"] [abcRow] (some "a.c") none).body := by
    rw [hbody]
    exact List.mem_singleton_self abcRow
  have hmatch := h ["short_name"] [abcRow] "a.c" (by decide) abcRow hmem
  exact absurd hmatch (by decide)

theorem api_search_player_compiled (dfCols : List String) (store : List SRow)
    (q : String) (ts : List RTok) (hq : pyStrip q ≠ "")
    (hcols : nameCols dfCols ≠ [])
    (hcomp : compileQuery (strLower (pyStrip q)) = some ts) :
    api_search_player dfCols store (some q) none =
      ⟨200, (store.filter (rowMatches ts (nameCols dfCols))).take 20⟩ := by
  have hq0 : q ≠ "" := by
    intro hq''
    exact hq (by rw [hq'']; rfl)
  have hor : pyOrStr (some q) (pyOrStr none "") = q := by
    have hred : pyOrStr (some q) (pyOrStr none "") =
        if q = "" then pyOrStr none "" else q := rfl
    rw [hred, if_neg hq0]
  unfold api_search_player
  rw [hor, if_neg hq]
  split
  next ts' hts' =>
    rw [hcomp] at hts'
    cases hts'
    rw [if_neg hcols]
  next hnone =>
    rw [hcomp] at hnone
    exact absurd hnone (by simp)

theorem api_search_player_v2_compiled (dfCols : List String) (store : List SRow)
    (q : String) (ts : List RTok) (hq : pyStrip q ≠ "")
    (hcols : nameCols dfCols ≠ [])
    (hcomp : compileQuery (strLower (pyStrip q)) = some ts) :
    api_search_player_v2 dfCols store (some q) =
      ⟨200, (store.filter (rowMatches ts (nameCols dfCols))).take 10⟩ := by
  have hq0 : q ≠ "" := by
    intro hq''
    exact hq (by rw [hq'']; rfl)
  have hor : pyOrStr (some q) "" = q := by
    have hred : pyOrStr (some q) "" = if q = "" then "" else q := rfl
    rw [hred, if_neg hq0]
  unfold api_search_player_v2
  rw [hor, if_neg (strLower_ne_empty hq), if_neg hcols]
  split
  next ts' hts' =>
    rw [hcomp] at hts'
    cases hts'
    rfl
  next hnone =>
    rw [hcomp] at hnone
    exact absurd hnone (by simp)

/-- C9 amended: for a query that is non-blank after stripping and whose
characters are all regex-literal (no metacharacter, so the pattern compiles
to a literal regular expression), both search routes perform exactly the
claimed case-insensitive substring match against the configured name
columns with OR semantics, in store order up to their caps (20 for the
primary route, 10 for the variant); when the filtered set fits under the
primary cap, a record is returned iff it is in the store and some
configured name column contains the query as a case-insensitive substring.
For queries using a metacharacter the pattern is a regular expression
instead (e.g. `"a.c"` matches `"abc"`), see the counterexample. -/
theorem C9_name_search (dfCols : List String) (store : List SRow) (q : String)
    (hq : pyStrip q ≠ "") (hcols : nameCols dfCols ≠ [])
    (hlit : ∀ c ∈ (strLower (pyStrip q)).toList, reSpecialChar c = false) :
    (api_search_player dfCols store (some q) none).body =
      (store.filter (literalNameMatch (strLower (pyStrip q)) (nameCols dfCols))).take 20 ∧
    (api_search_player dfCols store (some q) none).status = 200 ∧
    (api_search_player_v2 dfCols store (some q)).body =
      (store.filter (literalNameMatch (strLower (pyStrip q)) (nameCols dfCols))).take 10 ∧
    ((store.filter (literalNameMatch (strLower (pyStrip q)) (nameCols dfCols))).length ≤ 20 →
      ∀ r : SRow, r ∈ (api_search_player dfCols store (some q) none).body ↔
        (r ∈ store ∧ literalNameMatch (strLower (pyStrip q)) (nameCols dfCols) r = true)) := by
  have hcomp : compileQuery (strLower (pyStrip q)) =
      some ((strLower (pyStrip q)).toList.map RTok.lit) :=
    compileChars_lits _ hlit
  have hfilter : store.filter
      (rowMatches ((strLower (pyStrip q)).toList.map RTok.lit) (nameCols dfCols)) =
      store.filter (literalNameMatch (strLower (pyStrip q)) (nameCols dfCols)) :=
    List.filter_congr (fun r _ => rowMatches_lits _ _ r)
  have h1 := api_search_player_compiled dfCols store q _ hq hcols hcomp
  have h2 := api_search_player_v2_compiled dfCols store q _ hq hcols hcomp
  have hbody : (api_search_player dfCols store (some q) none).body =
      (store.filter (literalNameMatch (strLower (pyStrip q)) (nameCols dfCols))).take 20 := by
    rw [h1, ← hfilter]
  refine ⟨hbody, by rw [h1], by rw [h2, ← hfilter], ?_⟩
  intro hlen r
  rw [hbody, List.take_of_length_le hlen, List.mem_filter]

theorem C9_witness :
    (api_search_player ["short_name"] [] (some "ab") none).body =
      (([] : List SRow).filter
        (literalNameMatch (strLower (pyStrip "ab")) (nameCols ["short_name"]))).take 20 :=
  (C9_name_search ["short_name"] [] "ab" (by decide) (by decide) (by decide)).1

end Momentum
